import Mathlib

/-!
Verification of the deterministic sampling core of the gw-campaign-draw
repository (src/draw.ts): seed derivation, the Mulberry32 PRNG stream,
weighted without-replacement sampling, the tiered draw engine, and the
output builder.  Each definition is a direct functional translation of the
corresponding JavaScript/TypeScript function; JavaScript numbers that stay
exact integers are modelled as `Int`/`Nat`, and every 32-bit conversion
performed by the JavaScript bitwise operators is made explicit as a
residue `% 2 ^ 32` (`ToUint32`) or a signed wrap `toInt32` (`ToInt32`, the
effect of `| 0`).
-/

/-- A participant record, translated from the `PlayerEntry` interface of
src/draw.ts: an address, the INIT spent, and the derived ticket count
(a non-negative integer weight). -/
structure PlayerEntry where
  address : String
  initSpent : Int
  tickets : Nat
deriving DecidableEq, Repr

/-- A prize tier, translated from the `PRIZE_TIERS` entries of src/draw.ts:
a name, a configured winner count and a fixed payout per winner. -/
structure PrizeTier where
  name : String
  winners : Nat
  initPerWinner : Nat
deriving DecidableEq, Repr

/-- The fixed tier configuration `PRIZE_TIERS` of src/draw.ts. -/
def PRIZE_TIERS : List PrizeTier :=
  [⟨"Grand Prize", 5, 2500⟩, ⟨"Major Prize", 20, 1125⟩, ⟨"Minor Prize", 50, 300⟩]

/-- JavaScript `ToInt32`: reduce an exact integer to its signed 32-bit
value (the effect of `| 0` and of the result of `<<`). -/
def toInt32 (x : Int) : Int :=
  if x % (2 ^ 32 : Int) < 2 ^ 31 then x % (2 ^ 32 : Int) else x % (2 ^ 32 : Int) - 2 ^ 32

/-- One step of the seed-derivation fold of `createSeededRandom`
(src/draw.ts line 85): `hashValue = ((hashValue << 5) - hashValue + code) | 0`.
In JavaScript `hashValue << 5` itself truncates to a signed 32-bit value, and
the trailing `| 0` truncates the exact sum; both truncations are explicit
`toInt32` here. -/
def hashStep (acc : Int) (code : Nat) : Int :=
  toInt32 (toInt32 (acc * 32) - acc + (code : Int))

/-- The seed-derivation fold over a list of character codes, accumulator
initialised to 0 (src/draw.ts lines 83-86). -/
def hashCodes (codes : List Nat) : Int :=
  codes.foldl hashStep 0

/-- Seed derivation from a string: fold `hashStep` over the character codes
of the seed string in order (src/draw.ts lines 83-86). -/
def hashString (s : String) : Int :=
  hashCodes (s.data.map Char.toNat)

/-- The spec's alternative formulation of one seed-derivation step:
`acc * 31 + code`, wrapped to signed 32 bits.  Stated from the spec's words
(§4.1) to be compared with `hashStep`, the translation of the source. -/
def hashStep31 (acc : Int) (code : Nat) : Int :=
  toInt32 (acc * 31 + (code : Int))

/-- The spec's alternative seed-derivation fold (`acc*31 + charCode`,
wrapped), for comparison with `hashCodes`. -/
def hashCodes31 (codes : List Nat) : Int :=
  codes.foldl hashStep31 0

/-- The Mulberry32 mixing pipeline of the closure returned by
`createSeededRandom` (src/draw.ts lines 88-93), applied to the 32-bit
residue `t0` of the updated state.  Every JavaScript bitwise operator
(`^`, `>>>`, `|`, `Math.imul`) acts on the 32-bit pattern, i.e. on the
residue modulo `2 ^ 32`; additions and multiplications are truncated to
that residue exactly where JavaScript truncates them.  The result is the
`ToUint32` value `(t ^ t >>> 14) >>> 0`, a natural number below `2 ^ 32`
(the returned float is this value divided by `2 ^ 32`). -/
def mulberryMix (t0 : Nat) : Nat :=
  let t1 := ((t0 ^^^ (t0 >>> 15)) * (t0 ||| 1)) % 2 ^ 32
  let t2 := t1 ^^^ ((t1 + (((t1 ^^^ (t1 >>> 7)) * (t1 ||| 61)) % 2 ^ 32)) % 2 ^ 32)
  t2 ^^^ (t2 >>> 14)

/-- One call of the PRNG closure (src/draw.ts lines 88-93):
`let t = hashValue += 0x6D2B79F5` stores the exact (unwrapped) sum back into
`hashValue`, and the mixing pipeline consumes its 32-bit residue.  Returns
the new stored state and the 32-bit output numerator `u` (the JavaScript
return value is `u / 2 ^ 32`). -/
def next (state : Int) : Int × Nat :=
  let state' := state + 0x6D2B79F5
  (state', mulberryMix ((state' % (2 ^ 32 : Int)).toNat))

/-- The stored PRNG state after `n` calls to `next`. -/
def stateAfter (state : Int) : Nat → Int
  | 0 => state
  | n + 1 => (next (stateAfter state n)).1

/-- The list of 32-bit output numerators of the first `n` calls to the PRNG
closure, starting from stored state `state`. -/
def streamOut (state : Int) : Nat → List Nat
  | 0 => []
  | n + 1 => (next state).2 :: streamOut (next state).1 n

/-- A wrapped-state variant of `next`, keeping the stored state reduced
modulo `2 ^ 32` as the spec describes (§4.2 step 1): used to compare the
code's widening state with the spec's fixed-width state. -/
def nextWrapped (state : Nat) : Nat × Nat :=
  let s' := (state + 0x6D2B79F5) % 2 ^ 32
  (s', mulberryMix s')

/-- Output numerators of the first `n` calls of the wrapped-state PRNG. -/
def streamOutWrapped (state : Nat) : Nat → List Nat
  | 0 => []
  | n + 1 => (nextWrapped state).2 :: streamOutWrapped (nextWrapped state).1 n

/-- Total weight of a pool: `remaining.reduce((sum, p) => sum + p.tickets, 0)`
(src/draw.ts line 107). -/
def sumTickets (players : List PlayerEntry) : Nat :=
  (players.map PlayerEntry.tickets).sum

/-- The cumulative-weight scan of `weightedRandomDraw` (src/draw.ts lines
118-127) fused with the removal `remaining.splice(winnerIndex, 1)` (line
131): scan the pool in order accumulating weights from `cum`; at the first
participant whose cumulative weight strictly exceeds `ticket`, return that
participant together with the pool with that one occurrence removed
(relative order of the rest preserved); `none` when no participant's
cumulative weight exceeds `ticket`, matching `winnerIndex = -1`. -/
def selectWinner : List PlayerEntry → Nat → Nat → Option (PlayerEntry × List PlayerEntry)
  | [], _, _ => none
  | p :: rest, ticket, cum =>
    if ticket < cum + p.tickets then some (p, rest)
    else (selectWinner rest ticket (cum + p.tickets)).map (fun wr => (wr.1, p :: wr.2))

/-- The draw loop of `weightedRandomDraw` (src/draw.ts lines 105-135):
iterate at most `count` times while the pool is nonempty; stop early when
the total weight is 0; otherwise advance the PRNG, form
`ticket = floor(u / 2^32 * total) = u * total / 2^32`, and run the
cumulative scan; on a hit, record the winner and recurse on the reduced
pool, on a miss (`winnerIndex = -1`) recurse with the pool unchanged (the
PRNG call is still consumed).  Returns (winners in draw order, final pool,
final PRNG state). -/
def drawIter : Nat → List PlayerEntry → Int → List PlayerEntry × List PlayerEntry × Int
  | 0, remaining, state => ([], remaining, state)
  | _ + 1, [], state => ([], [], state)
  | n + 1, p :: rest, state =>
    let total := sumTickets (p :: rest)
    if total = 0 then ([], p :: rest, state)
    else
      let su := next state
      let ticket := su.2 * total / 2 ^ 32
      match selectWinner (p :: rest) ticket 0 with
      | some wr =>
        let out := drawIter n wr.2 su.1
        (wr.1 :: out.1, out.2.1, out.2.2)
      | none =>
        let out := drawIter n (p :: rest) su.1
        (out.1, out.2.1, out.2.2)

/-- `weightedRandomDraw(players, count, random)` (src/draw.ts lines 99-136):
the loop runs on a copy `[...players]` of the pool; the function returns the
winners, and (in this state-passing translation) the advanced PRNG state. -/
def weightedRandomDraw (players : List PlayerEntry) (count : Nat) (state : Int) :
    List PlayerEntry × Int :=
  let out := drawIter count players state
  (out.1, out.2.2)

/-- JavaScript `Map.prototype.set` on an insertion-ordered association list:
overwrite in place when the key is present, append otherwise (the `results`
map of `conductDraw`). -/
def mapSet (m : List (String × String × Nat)) (k : String) (v : String × Nat) :
    List (String × String × Nat) :=
  if m.any (fun kv => kv.1 == k) then
    m.map (fun kv => if kv.1 == k then (k, v) else kv)
  else m ++ [(k, v)]

/-- The per-winner pool update of `conductDraw` (src/draw.ts line 166):
`eligiblePlayers = eligiblePlayers.filter((p) => p.address !== winner.address)`,
folded over the tier's winners in order. -/
def removeAddr (eligible : List PlayerEntry) (ws : List PlayerEntry) : List PlayerEntry :=
  ws.foldl (fun e w => e.filter (fun p => p.address != w.address)) eligible

/-- The tier loop of `conductDraw` (src/draw.ts lines 153-168), generalised
over the tier list it iterates (the source iterates the constant
`PRIZE_TIERS`).  For each tier in order: draw that tier's winners from the
current eligible pool, record `address -> (tier.name, tier.initPerWinner)`
in the results map, and remove each winner's address from the eligible
pool.  The source interleaves the `results.set` and the pool filter in one
loop over the winners; as the two touch disjoint state they are translated
as two folds.  Besides the results map the translation also returns the
per-tier winner lists (the `winners` locals of the source, which the source
only consumes via the inner loop). -/
def conductDrawAux :
    List PrizeTier → List PlayerEntry → Int → List (String × String × Nat) →
    List (String × String × Nat) × List (List PlayerEntry)
  | [], _, _, results => (results, [])
  | tier :: rest, eligible, state, results =>
    let dr := weightedRandomDraw eligible tier.winners state
    let results' := dr.1.foldl
      (fun r w => mapSet r w.address (tier.name, tier.initPerWinner)) results
    let eligible' := removeAddr eligible dr.1
    let out := conductDrawAux rest eligible' dr.2 results'
    (out.1, dr.1 :: out.2)

/-- `conductDraw(players, nistRandomness)` (src/draw.ts lines 139-171),
generalised over the tier list: seed the PRNG from the randomness string,
filter the population to participants with `tickets > 0`, and run the tier
loop with an empty results map. -/
def conductDrawWith (tiers : List PrizeTier) (players : List PlayerEntry) (seed : String) :
    List (String × String × Nat) × List (List PlayerEntry) :=
  conductDrawAux tiers (players.filter (fun p => decide (0 < p.tickets))) (hashString seed) []

/-- `conductDraw` with the source's fixed `PRIZE_TIERS` configuration. -/
def conductDraw (players : List PlayerEntry) (seed : String) :
    List (String × String × Nat) × List (List PlayerEntry) :=
  conductDrawWith PRIZE_TIERS players seed

/-- One output row of `generateOutput` (src/draw.ts lines 184-193): look the
player's address up in the results map; a winner row carries its tier name
and amount, a non-winner row the empty tier name and amount 0. -/
structure DrawResult where
  address : String
  init_spent : Int
  tickets : Nat
  prize_tier : String
  init_won : Nat
deriving DecidableEq, Repr

/-- Build the row for one player from the results map (src/draw.ts lines
184-193): `result?.tier ?? ''` and `result?.amount ?? 0`. -/
def buildRow (results : List (String × String × Nat)) (p : PlayerEntry) : DrawResult :=
  match results.find? (fun kv => kv.1 == p.address) with
  | some kv => ⟨p.address, p.initSpent, p.tickets, kv.2.1, kv.2.2⟩
  | none => ⟨p.address, p.initSpent, p.tickets, "", 0⟩

/-- The sort comparator of `generateOutput` (src/draw.ts lines 197-200) as a
boolean "may come first" relation: `a` may precede `b` when
`cmp(a, b) <= 0`, i.e. strictly larger `init_won`, or equal `init_won` and
`tickets` at least as large. -/
def resultLE (a b : DrawResult) : Bool :=
  if a.init_won = b.init_won then decide (b.tickets ≤ a.tickets)
  else decide (b.init_won < a.init_won)

/-- `generateOutput` (src/draw.ts lines 179-204), up to CSV serialisation:
one row per player in population order, then the stable sort by the
comparator (winners by descending amount first, ties by descending
tickets). -/
def generateOutput (players : List PlayerEntry) (results : List (String × String × Nat)) :
    List DrawResult :=
  (players.map (buildRow results)).mergeSort resultLE

/-- Cumulative weight of the first `k` pool members, the value the scan of
`weightedRandomDraw` accumulates: `sum of remaining[0..k).tickets`. -/
def cumWeight (l : List PlayerEntry) (k : Nat) : Nat :=
  sumTickets (l.take k)

/-- Greedy tier filling: each tier's winner list has length
`min (configured count) (pool left)`, the pool shrinking by each tier's
actual winner count.  This is the shape the tier loop produces on an
all-positive, duplicate-free pool of the given size. -/
def Greedy : List PrizeTier → List (List PlayerEntry) → Nat → Prop
  | [], [], _ => True
  | tier :: rest, l :: ls, r => l.length = min tier.winners r ∧ Greedy rest ls (r - l.length)
  | _, _, _ => False

/-! Sanity checks of the embedding on concrete inputs (cross-checked against
an exact-integer emulation of the JavaScript). -/

example : hashString "test" = 3556498 := by decide
example : hashString "" = 0 := by rfl
example : streamOut (hashString "") 2 = [1144304738, 1416247] := by decide
example :
    (conductDrawWith [⟨"T1", 1, 1⟩, ⟨"T2", 3, 1⟩]
      [⟨"A", 100, 1⟩, ⟨"A", 100, 1⟩, ⟨"B", 100, 1⟩] "").2 =
    [[⟨"A", 100, 1⟩], [⟨"B", 100, 1⟩]] := by decide

/-! ## Helper lemmas -/

lemma toInt32_emod (x : Int) : toInt32 x % (2 ^ 32 : Int) = x % (2 ^ 32 : Int) := by
  unfold toInt32
  split <;> omega

lemma toInt32_congr (x y : Int) (h : x % (2 ^ 32 : Int) = y % (2 ^ 32 : Int)) :
    toInt32 x = toInt32 y := by
  unfold toInt32
  rw [h]

lemma toInt32_range (x : Int) : -(2 ^ 31) ≤ toInt32 x ∧ toInt32 x < 2 ^ 31 := by
  unfold toInt32
  split <;> omega

lemma hashStep_eq31 (acc : Int) (c : Nat) : hashStep acc c = hashStep31 acc c := by
  unfold hashStep hashStep31
  apply toInt32_congr
  have h1 := toInt32_emod (acc * 32)
  omega

lemma foldl_hashStep_eq31 (codes : List Nat) :
    ∀ acc : Int, codes.foldl hashStep acc = codes.foldl hashStep31 acc := by
  induction codes with
  | nil => intro acc; rfl
  | cons c rest ih =>
    intro acc
    simp only [List.foldl_cons, hashStep_eq31]
    exact ih (hashStep31 acc c)

lemma foldl_hashStep_range (codes : List Nat) :
    ∀ acc : Int, -(2 ^ 31) ≤ acc → acc < 2 ^ 31 →
      -(2 ^ 31) ≤ codes.foldl hashStep acc ∧ codes.foldl hashStep acc < 2 ^ 31 := by
  induction codes with
  | nil => intro acc h1 h2; exact ⟨h1, h2⟩
  | cons c rest ih =>
    intro acc h1 h2
    simp only [List.foldl_cons]
    have hr := toInt32_range (toInt32 (acc * 32) - acc + (c : Int))
    exact ih (hashStep acc c) hr.1 hr.2

lemma streamOut_eq_wrapped (n : Nat) :
    ∀ s : Int, streamOut s n = streamOutWrapped ((s % (2 ^ 32 : Int))).toNat n := by
  induction n with
  | zero => intro s; rfl
  | succ m ih =>
    intro s
    have hkey : (((s + 0x6D2B79F5) % (2 ^ 32 : Int))).toNat =
        (((s % (2 ^ 32 : Int))).toNat + 0x6D2B79F5) % 2 ^ 32 := by
      omega
    simp only [streamOut, streamOutWrapped, next, nextWrapped, ih (s + 0x6D2B79F5), hkey]

/-- Claim C7: for every input string the seed derivation is the in-order
fold of `acc := ((acc << 5) - acc + charCode) | 0` from accumulator 0 (that
is the definition `hashString`), this fold agrees with the fold
`acc := acc * 31 + charCode` wrapped to 32 bits for every string, and the
result is a signed 32-bit integer. -/
theorem c7_hash_fold_equiv (s : String) :
    hashString s = hashCodes31 (s.data.map Char.toNat) ∧
    -(2 ^ 31) ≤ hashString s ∧ hashString s < 2 ^ 31 := by
  refine ⟨foldl_hashStep_eq31 (s.data.map Char.toNat) 0, ?_⟩
  have h := foldl_hashStep_range (s.data.map Char.toNat) 0 (by norm_num) (by norm_num)
  exact h

/-- Claim C5, counterexample: the stored PRNG state does not stay a
fixed-width 32-bit integer.  Starting from the seed derived from the empty
string (hash 0), after three calls the stored state is
`3 * 0x6D2B79F5 = 5494697439 ≥ 2 ^ 32`: the store `hashValue += 0x6D2B79F5`
widens instead of wrapping, so the stored state differs from the claimed
`(state + 0x6D2B79F5) mod 2 ^ 32` update. -/
theorem c5_state_widens_counterexample :
    stateAfter (hashString "") 3 = 5494697439 ∧
    ¬ stateAfter (hashString "") 3 < (2 ^ 32 : Int) ∧
    stateAfter (hashString "") 3 ≠
      (stateAfter (hashString "") 2 + 0x6D2B79F5) % (2 ^ 32 : Int) := by
  refine ⟨by decide, by decide, by decide⟩

/-- Claim C5, amended: the mixing pipeline of each call consumes the
updated state reduced modulo `2 ^ 32`, so the output stream from any stored
state equals the output stream of the wrapped-state PRNG whose state is
kept as `(state + 0x6D2B79F5) mod 2 ^ 32`; the stored state itself is the
exact integer sum and widens beyond 32 bits rather than wrapping. -/
theorem c5_stream_equals_wrapped_state (s : Int) (n : Nat) :
    streamOut s n = streamOutWrapped ((s % (2 ^ 32 : Int))).toNat n :=
  streamOut_eq_wrapped n s

/-- Claim C1: the draw is deterministic — the winner mapping produced by
`conductDraw` is a pure function of the population list (in order, with
weights), the tier list, and the seed string.  The translation threads the
entire PRNG state explicitly, so two runs on equal inputs are equal
outputs. -/
theorem c1_determinism (tiers tiers' : List PrizeTier) (players players' : List PlayerEntry)
    (seed seed' : String) (ht : tiers = tiers') (hp : players = players')
    (hs : seed = seed') :
    conductDrawWith tiers players seed = conductDrawWith tiers' players' seed' := by
  rw [ht, hp, hs]

/-- Claim C1, witness: two runs of the reference configuration on a
concrete one-player population and the seed "test" coincide. -/
theorem c1_determinism_witness :
    conductDrawWith PRIZE_TIERS [⟨"A", 100, 1⟩] "test" =
      conductDrawWith PRIZE_TIERS [⟨"A", 100, 1⟩] "test" :=
  c1_determinism PRIZE_TIERS PRIZE_TIERS [⟨"A", 100, 1⟩] [⟨"A", 100, 1⟩] "test" "test"
    rfl rfl rfl

/-- Claim C6, counterexample: on the empty seed string the core does not
fail fast — it constructs the PRNG (seed hash 0) and proceeds with the tier
draws: with a one-player population and a one-winner tier it returns that
player as a winner. -/
theorem c6_empty_seed_draw_proceeds_counterexample :
    (conductDrawWith [⟨"T1", 1, 10⟩] [⟨"A", 100, 1⟩] "").1 = [("A", "T1", 10)] ∧
    (conductDrawWith [⟨"T1", 1, 10⟩] [⟨"A", 100, 1⟩] "").2 = [[⟨"A", 100, 1⟩]] := by
  refine ⟨by decide, by decide⟩

/-- Claim C6, amended: the core performs no seed validation.  Any string —
including the empty string — is accepted: the empty seed folds to hash 0,
the PRNG is constructed with state 0, and every tier draw proceeds
normally.  Failing fast on malformed or missing randomness happens only in
the external fetch shim, before the core is invoked. -/
theorem c6_no_seed_validation (tiers : List PrizeTier) (players : List PlayerEntry) :
    hashString "" = 0 ∧
    conductDrawWith tiers players "" =
      conductDrawAux tiers (players.filter (fun p => decide (0 < p.tickets))) 0 [] := by
  exact ⟨rfl, rfl⟩

lemma sumTickets_cons (p : PlayerEntry) (l : List PlayerEntry) :
    sumTickets (p :: l) = p.tickets + sumTickets l := by
  simp [sumTickets]

lemma sumTickets_pos (l : List PlayerEntry) (hne : l ≠ [])
    (hpos : ∀ p ∈ l, 0 < p.tickets) : 0 < sumTickets l := by
  match l with
  | [] => exact absurd rfl hne
  | p :: rest =>
    have := hpos p (List.mem_cons_self p rest)
    rw [sumTickets_cons]
    omega

lemma cumWeight_zero (l : List PlayerEntry) : cumWeight l 0 = 0 := by
  simp [cumWeight, sumTickets]

lemma cumWeight_cons_succ (p : PlayerEntry) (l : List PlayerEntry) (k : Nat) :
    cumWeight (p :: l) (k + 1) = p.tickets + cumWeight l k := by
  simp [cumWeight, List.take_cons, sumTickets]

lemma shiftRight_le_self (n k : Nat) : n >>> k ≤ n := by
  rw [Nat.shiftRight_eq_div_pow]
  exact Nat.div_le_self _ _

lemma xor_shift_lt (a k : Nat) (h : a < 2 ^ 32) : (a ^^^ (a >>> k)) < 2 ^ 32 :=
  Nat.xor_lt_two_pow h (Nat.lt_of_le_of_lt (shiftRight_le_self a k) h)

lemma mulberryMix_lt (t0 : Nat) : mulberryMix t0 < 2 ^ 32 := by
  simp only [mulberryMix]
  exact xor_shift_lt _ 14
    (Nat.xor_lt_two_pow (Nat.mod_lt _ (by norm_num)) (Nat.mod_lt _ (by norm_num)))

lemma next_snd_lt (state : Int) : (next state).2 < 2 ^ 32 := by
  unfold next
  exact mulberryMix_lt _

lemma ticket_lt (u total : Nat) (hu : u < 2 ^ 32) (ht : 0 < total) :
    u * total / 2 ^ 32 < total := by
  rw [Nat.div_lt_iff_lt_mul (by norm_num : 0 < 2 ^ 32)]
  calc u * total < 2 ^ 32 * total := by exact Nat.mul_lt_mul_of_lt_of_le hu (le_refl total) ht
  _ = total * 2 ^ 32 := Nat.mul_comm _ _

lemma selectWinner_spec (l : List PlayerEntry) :
    ∀ t c : Nat, c ≤ t → t < c + sumTickets l →
      ∃ j : Nat, ∃ hj : j < l.length,
        selectWinner l t c = some (l.get ⟨j, hj⟩, l.take j ++ l.drop (j + 1)) ∧
        t < c + cumWeight l (j + 1) ∧ ∀ i, i < j → c + cumWeight l (i + 1) ≤ t := by
  induction l with
  | nil =>
    intro t c hc hlt
    simp [sumTickets] at hlt
    omega
  | cons p rest ih =>
    intro t c hc hlt
    by_cases h : t < c + p.tickets
    · refine ⟨0, by simp, ?_, ?_, ?_⟩
      · simp [selectWinner, h]
      · rw [cumWeight_cons_succ, cumWeight_zero]
        omega
      · intro i hi
        omega
    · push_neg at h
      rw [sumTickets_cons] at hlt
      obtain ⟨j, hj, heq, hup, hmin⟩ := ih t (c + p.tickets) h (by omega)
      refine ⟨j + 1, by simpa using Nat.succ_lt_succ hj, ?_, ?_, ?_⟩
      · simp only [selectWinner, if_neg (by omega : ¬ t < c + p.tickets), heq]
        simp [List.take_succ_cons, List.drop_succ_cons]
      · rw [cumWeight_cons_succ]
        omega
      · intro i hi
        match i with
        | 0 =>
          rw [cumWeight_cons_succ, cumWeight_zero]
          omega
        | i' + 1 =>
          rw [cumWeight_cons_succ]
          have := hmin i' (by omega)
          omega

lemma selectWinner_pos (l : List PlayerEntry) :
    ∀ t c : Nat, c ≤ t → ∀ w rem, selectWinner l t c = some (w, rem) → 0 < w.tickets := by
  induction l with
  | nil => intro t c _ w rem h; simp [selectWinner] at h
  | cons p rest ih =>
    intro t c hc w rem h
    by_cases hp : t < c + p.tickets
    · rw [selectWinner, if_pos hp] at h
      injection h with h
      injection h with h1 h2
      subst h1
      omega
    · rw [selectWinner, if_neg hp] at h
      obtain ⟨wr, hsel, hfa⟩ := Option.map_eq_some'.mp h
      injection hfa with h1 h2
      subst h1
      exact ih t (c + p.tickets) (by omega) wr.1 wr.2 (by rw [hsel])

lemma selectWinner_perm (l : List PlayerEntry) :
    ∀ t c : Nat, ∀ w rem, selectWinner l t c = some (w, rem) → l.Perm (w :: rem) := by
  induction l with
  | nil => intro t c w rem h; simp [selectWinner] at h
  | cons p rest ih =>
    intro t c w rem h
    by_cases hp : t < c + p.tickets
    · rw [selectWinner, if_pos hp] at h
      injection h with h
      injection h with h1 h2
      subst h1
      subst h2
      exact List.Perm.refl _
    · rw [selectWinner, if_neg hp] at h
      obtain ⟨wr, hsel, hfa⟩ := Option.map_eq_some'.mp h
      injection hfa with h1 h2
      subst h1
      subst h2
      have hperm : (p :: rest).Perm (p :: wr.1 :: wr.2) :=
        List.Perm.cons p (ih t (c + p.tickets) wr.1 wr.2 (by rw [hsel]))
      exact hperm.trans (List.Perm.swap _ _ _)

lemma drawIter_perm (n : Nat) : ∀ (remaining : List PlayerEntry) (state : Int),
    remaining.Perm ((drawIter n remaining state).1 ++ (drawIter n remaining state).2.1) := by
  induction n with
  | zero => intro remaining state; simp [drawIter]
  | succ m ih =>
    intro remaining state
    match remaining with
    | [] => simp [drawIter]
    | p :: rest =>
      by_cases h0 : sumTickets (p :: rest) = 0
      · simp [drawIter, h0]
      · cases hsel : selectWinner (p :: rest)
            ((next state).2 * sumTickets (p :: rest) / 2 ^ 32) 0 with
        | none =>
          simp only [drawIter, if_neg h0, hsel]
          exact ih (p :: rest) (next state).1
        | some wr =>
          simp only [drawIter, if_neg h0, hsel]
          have hp := selectWinner_perm (p :: rest) _ 0 wr.1 wr.2 (by rw [hsel])
          exact hp.trans (List.Perm.cons wr.1 (ih wr.2 (next state).1))

lemma drawIter_pos (n : Nat) : ∀ (remaining : List PlayerEntry) (state : Int),
    ∀ w ∈ (drawIter n remaining state).1, 0 < w.tickets := by
  induction n with
  | zero => intro remaining state w hw; simp [drawIter] at hw
  | succ m ih =>
    intro remaining state w hw
    match remaining with
    | [] => simp [drawIter] at hw
    | p :: rest =>
      by_cases h0 : sumTickets (p :: rest) = 0
      · simp [drawIter, h0] at hw
      · cases hsel : selectWinner (p :: rest)
            ((next state).2 * sumTickets (p :: rest) / 2 ^ 32) 0 with
        | none =>
          simp only [drawIter, if_neg h0, hsel] at hw
          exact ih (p :: rest) (next state).1 w hw
        | some wr =>
          simp only [drawIter, if_neg h0, hsel, List.mem_cons] at hw
          rcases hw with hw | hw
          · subst hw
            exact selectWinner_pos (p :: rest) _ 0 (Nat.zero_le _) wr.1 wr.2 (by rw [hsel])
          · exact ih wr.2 (next state).1 w hw

lemma drawIter_len (n : Nat) : ∀ (remaining : List PlayerEntry) (state : Int),
    (∀ p ∈ remaining, 0 < p.tickets) →
    (drawIter n remaining state).1.length = min n remaining.length := by
  induction n with
  | zero => intro remaining state _; simp [drawIter]
  | succ m ih =>
    intro remaining state hpos
    match remaining with
    | [] => simp [drawIter]
    | p :: rest =>
      have hsum : 0 < sumTickets (p :: rest) :=
        sumTickets_pos _ (by simp) hpos
      have h0 : ¬ sumTickets (p :: rest) = 0 := by omega
      have hu := next_snd_lt state
      have hticket : (next state).2 * sumTickets (p :: rest) / 2 ^ 32 <
          sumTickets (p :: rest) := ticket_lt _ _ hu hsum
      obtain ⟨j, hj, heq, _, _⟩ := selectWinner_spec (p :: rest)
        ((next state).2 * sumTickets (p :: rest) / 2 ^ 32) 0 (Nat.zero_le _)
        (by omega)
      simp only [drawIter, if_neg h0, heq]
      have hmem : ∀ q ∈ (p :: rest).take j ++ (p :: rest).drop (j + 1), 0 < q.tickets := by
        intro q hq
        rcases List.mem_append.mp hq with hq | hq
        · exact hpos q (List.take_subset _ _ hq)
        · exact hpos q (List.drop_subset _ _ hq)
      have hlen : ((p :: rest).take j ++ (p :: rest).drop (j + 1)).length =
          (p :: rest).length - 1 := by
        simp only [List.length_append, List.length_take, List.length_drop]
        simp only [List.length_cons] at hj ⊢
        omega
      have hrec := ih ((p :: rest).take j ++ (p :: rest).drop (j + 1)) (next state).1 hmem
      rw [hlen] at hrec
      simp only [List.length_cons, hrec]
      simp only [List.length_cons] at hj
      omega

lemma removeAddr_eq_filter (ws : List PlayerEntry) :
    ∀ eligible : List PlayerEntry,
      removeAddr eligible ws =
        eligible.filter (fun p => ws.all (fun w => p.address != w.address)) := by
  induction ws with
  | nil =>
    intro eligible
    simp [removeAddr]
  | cons w ws ih =>
    intro eligible
    have h1 : removeAddr eligible (w :: ws) =
        removeAddr (eligible.filter (fun p => p.address != w.address)) ws := by
      simp [removeAddr]
    rw [h1, ih, List.filter_filter]
    refine List.filter_congr ?_
    intro p _
    simp only [List.all_cons]
    exact Bool.and_comm _ _

lemma removeAddr_subset (ws eligible : List PlayerEntry) :
    ∀ p ∈ removeAddr eligible ws, p ∈ eligible := by
  intro p hp
  rw [removeAddr_eq_filter] at hp
  exact List.mem_of_mem_filter hp

lemma conductDrawAux_mem :
    ∀ (tiers : List PrizeTier) (eligible : List PlayerEntry) (state : Int)
      (results : List (String × String × Nat)),
      ∀ l ∈ (conductDrawAux tiers eligible state results).2, ∀ w ∈ l, w ∈ eligible := by
  intro tiers
  induction tiers with
  | nil => intro eligible state results l hl; simp [conductDrawAux] at hl
  | cons tier rest ih =>
    intro eligible state results l hl w hw
    simp only [conductDrawAux, List.mem_cons] at hl
    rcases hl with hl | hl
    · subst hl
      have hperm := drawIter_perm tier.winners eligible state
      exact hperm.mem_iff.mpr (List.mem_append_left _ hw)
    · have := ih (removeAddr eligible (weightedRandomDraw eligible tier.winners state).1)
        (weightedRandomDraw eligible tier.winners state).2 _ l hl w hw
      exact removeAddr_subset _ _ w this

lemma conductDrawAux_winners_pos :
    ∀ (tiers : List PrizeTier) (eligible : List PlayerEntry) (state : Int)
      (results : List (String × String × Nat)),
      ∀ l ∈ (conductDrawAux tiers eligible state results).2, ∀ w ∈ l, 0 < w.tickets := by
  intro tiers
  induction tiers with
  | nil => intro eligible state results l hl; simp [conductDrawAux] at hl
  | cons tier rest ih =>
    intro eligible state results l hl w hw
    simp only [conductDrawAux, List.mem_cons] at hl
    rcases hl with hl | hl
    · subst hl
      exact drawIter_pos tier.winners eligible state w hw
    · exact ih _ _ _ l hl w hw

/-- Claim C3: in a draw iteration on a pool with positive total weight, the
ticket `floor(u / 2^32 * totalWeight) = u * totalWeight / 2^32` is below
`totalWeight` (it is a natural number, so it lies in `[0, totalWeight)`),
the cumulative scan selects some participant, and the selected one is
exactly the first in pool order whose cumulative weight strictly exceeds
the ticket (`randomTicket < cumulative`, strict-less on the upper bound):
the cumulative weight through the winner exceeds the ticket and every
earlier cumulative weight is at most the ticket. -/
theorem c3_ticket_range_and_first_over (remaining : List PlayerEntry) (state : Int)
    (hpos : 0 < sumTickets remaining) :
    (next state).2 * sumTickets remaining / 2 ^ 32 < sumTickets remaining ∧
    ∃ j : Nat, ∃ hj : j < remaining.length,
      selectWinner remaining ((next state).2 * sumTickets remaining / 2 ^ 32) 0 =
        some (remaining.get ⟨j, hj⟩, remaining.take j ++ remaining.drop (j + 1)) ∧
      (next state).2 * sumTickets remaining / 2 ^ 32 < cumWeight remaining (j + 1) ∧
      ∀ i, i < j →
        cumWeight remaining (i + 1) ≤ (next state).2 * sumTickets remaining / 2 ^ 32 := by
  have hu := next_snd_lt state
  have ht := ticket_lt _ _ hu hpos
  obtain ⟨j, hj, heq, hup, hmin⟩ :=
    selectWinner_spec remaining ((next state).2 * sumTickets remaining / 2 ^ 32) 0
      (Nat.zero_le _) (by omega)
  refine ⟨ht, j, hj, heq, by omega, ?_⟩
  intro i hi
  have := hmin i hi
  omega

/-- Claim C3, witness: on the one-player pool with weight 1 and PRNG state
0, the ticket is 0 < 1 and the scan selects that player. -/
theorem c3_witness :
    0 < sumTickets [⟨"A", 100, 1⟩] ∧
    ((next 0).2 * sumTickets [⟨"A", 100, 1⟩] / 2 ^ 32 < sumTickets [⟨"A", 100, 1⟩] ∧
    ∃ j : Nat, ∃ hj : j < ([⟨"A", 100, 1⟩] : List PlayerEntry).length,
      selectWinner [⟨"A", 100, 1⟩] ((next 0).2 * sumTickets [⟨"A", 100, 1⟩] / 2 ^ 32) 0 =
        some (([⟨"A", 100, 1⟩] : List PlayerEntry).get ⟨j, hj⟩,
          ([⟨"A", 100, 1⟩] : List PlayerEntry).take j ++
            ([⟨"A", 100, 1⟩] : List PlayerEntry).drop (j + 1)) ∧
      (next 0).2 * sumTickets [⟨"A", 100, 1⟩] / 2 ^ 32 <
        cumWeight [⟨"A", 100, 1⟩] (j + 1) ∧
      ∀ i, i < j →
        cumWeight [⟨"A", 100, 1⟩] (i + 1) ≤
          (next 0).2 * sumTickets [⟨"A", 100, 1⟩] / 2 ^ 32) :=
  ⟨by decide, c3_ticket_range_and_first_over [⟨"A", 100, 1⟩] 0 (by decide)⟩

/-- Claim C4: a participant with weight 0 is never among the winners
returned by `weightedRandomDraw` — every winner has positive weight — and
hence never wins any tier of the full draw, for every pool, count, tier
list and seed. -/
theorem c4_zero_weight_never_wins :
    (∀ (players : List PlayerEntry) (count : Nat) (state : Int),
      ∀ w ∈ (weightedRandomDraw players count state).1, 0 < w.tickets) ∧
    (∀ (tiers : List PrizeTier) (players : List PlayerEntry) (seed : String),
      ∀ l ∈ (conductDrawWith tiers players seed).2, ∀ w ∈ l, 0 < w.tickets) := by
  constructor
  · intro players count state w hw
    exact drawIter_pos count players state w hw
  · intro tiers players seed l hl w hw
    exact conductDrawAux_winners_pos tiers _ _ _ l hl w hw

/-- Claim C4, witness: in the pool with one weight-1 player and one
weight-0 player, the weight-1 player is drawn and has positive weight. -/
theorem c4_witness :
    (⟨"A", 100, 1⟩ : PlayerEntry) ∈
      (weightedRandomDraw [⟨"A", 100, 1⟩, ⟨"Z", 0, 0⟩] 1 0).1 ∧
    0 < (⟨"A", 100, 1⟩ : PlayerEntry).tickets :=
  ⟨by decide,
    c4_zero_weight_never_wins.1 [⟨"A", 100, 1⟩, ⟨"Z", 0, 0⟩] 1 0 ⟨"A", 100, 1⟩ (by decide)⟩

/-- Claim C10: the draw never alters the participant records it is given.
In this pure translation the sampler's winners-plus-final-pool is a
permutation of the input pool (the pool copy is only ever partitioned, each
record kept unchanged), and every winner of every tier of the full draw is
one of the caller's original records. -/
theorem c10_pool_unchanged :
    (∀ (players : List PlayerEntry) (count : Nat) (state : Int),
      players.Perm ((drawIter count players state).1 ++ (drawIter count players state).2.1) ∧
      ∀ w ∈ (weightedRandomDraw players count state).1, w ∈ players) ∧
    (∀ (tiers : List PrizeTier) (players : List PlayerEntry) (seed : String),
      ∀ l ∈ (conductDrawWith tiers players seed).2, ∀ w ∈ l, w ∈ players) := by
  constructor
  · intro players count state
    refine ⟨drawIter_perm count players state, ?_⟩
    intro w hw
    exact (drawIter_perm count players state).mem_iff.mpr (List.mem_append_left _ hw)
  · intro tiers players seed l hl w hw
    have := conductDrawAux_mem tiers _ _ _ l hl w hw
    exact List.mem_of_mem_filter this

/-- Claim C10, witness: the winner drawn from the concrete one-player pool
is the original record of the caller's list. -/
theorem c10_witness :
    [(⟨"A", 100, 1⟩ : PlayerEntry)].Perm
      ((drawIter 1 [⟨"A", 100, 1⟩] 0).1 ++ (drawIter 1 [⟨"A", 100, 1⟩] 0).2.1) ∧
    (⟨"A", 100, 1⟩ : PlayerEntry) ∈ [(⟨"A", 100, 1⟩ : PlayerEntry)] :=
  ⟨(c10_pool_unchanged.1 [⟨"A", 100, 1⟩] 1 0).1,
    c10_pool_unchanged.2 [⟨"T1", 1, 10⟩] [⟨"A", 100, 1⟩] ""
      [⟨"A", 100, 1⟩] (by decide) ⟨"A", 100, 1⟩ (by decide)⟩

lemma conductDrawAux_snd_cons (tier : PrizeTier) (rest : List PrizeTier)
    (eligible : List PlayerEntry) (state : Int) (results : List (String × String × Nat)) :
    (conductDrawAux (tier :: rest) eligible state results).2 =
      (drawIter tier.winners eligible state).1 ::
        (conductDrawAux rest (removeAddr eligible (drawIter tier.winners eligible state).1)
          (drawIter tier.winners eligible state).2.2
          ((drawIter tier.winners eligible state).1.foldl
            (fun r w => mapSet r w.address (tier.name, tier.initPerWinner)) results)).2 :=
  rfl

lemma conductDrawAux_spec :
    ∀ (tiers : List PrizeTier) (eligible : List PlayerEntry) (state : Int)
      (results : List (String × String × Nat)),
      (∀ p ∈ eligible, 0 < p.tickets) → (eligible.map PlayerEntry.address).Nodup →
      (conductDrawAux tiers eligible state results).2.length = tiers.length ∧
      Greedy tiers (conductDrawAux tiers eligible state results).2 eligible.length ∧
      (∀ l ∈ (conductDrawAux tiers eligible state results).2,
        (l.map PlayerEntry.address).Nodup) ∧
      (conductDrawAux tiers eligible state results).2.Pairwise
        (fun l₁ l₂ => ∀ w ∈ l₁, ∀ w' ∈ l₂, w.address ≠ w'.address) := by
  intro tiers
  induction tiers with
  | nil =>
    intro eligible state results _ _
    refine ⟨rfl, trivial, ?_, ?_⟩
    · intro l hl
      simp [conductDrawAux] at hl
    · exact List.Pairwise.nil
  | cons tier rest ih =>
    intro eligible state results hpos hnd
    have hperm := drawIter_perm tier.winners eligible state
    have hlen := drawIter_len tier.winners eligible state hpos
    have hndwr : (((drawIter tier.winners eligible state).1 ++
        (drawIter tier.winners eligible state).2.1).map PlayerEntry.address).Nodup :=
      ((hperm.map PlayerEntry.address).nodup_iff).mp hnd
    rw [List.map_append, List.nodup_append] at hndwr
    obtain ⟨hndws, hndrem, hdisj⟩ := hndwr
    have hPrem : ∀ p ∈ (drawIter tier.winners eligible state).2.1,
        ((drawIter tier.winners eligible state).1.all
          (fun w => p.address != w.address)) = true := by
      intro p hp
      rw [List.all_eq_true]
      intro w hw
      rw [bne_iff_ne]
      intro hco
      exact hdisj (List.mem_map_of_mem PlayerEntry.address hw)
        (hco ▸ List.mem_map_of_mem PlayerEntry.address hp)
    have hPws : ∀ w ∈ (drawIter tier.winners eligible state).1,
        ¬ ((drawIter tier.winners eligible state).1.all
          (fun w' => w.address != w'.address)) = true := by
      intro w hw hall
      have := List.all_eq_true.mp hall w hw
      simp at this
    have hrm : (removeAddr eligible (drawIter tier.winners eligible state).1).Perm
        (drawIter tier.winners eligible state).2.1 := by
      rw [removeAddr_eq_filter]
      have step1 := hperm.filter
        (fun p => (drawIter tier.winners eligible state).1.all
          (fun w => p.address != w.address))
      rw [List.filter_append, List.filter_eq_nil_iff.mpr hPws,
        List.filter_eq_self.mpr hPrem, List.nil_append] at step1
      exact step1
    have hlenrm : (removeAddr eligible (drawIter tier.winners eligible state).1).length =
        eligible.length - (drawIter tier.winners eligible state).1.length := by
      have h1 := hrm.length_eq
      have h2 := hperm.length_eq
      rw [List.length_append] at h2
      omega
    have hpos' : ∀ p ∈ removeAddr eligible (drawIter tier.winners eligible state).1,
        0 < p.tickets := fun p hp => hpos p (removeAddr_subset _ _ p hp)
    have hnd' : ((removeAddr eligible
        (drawIter tier.winners eligible state).1).map PlayerEntry.address).Nodup := by
      rw [removeAddr_eq_filter]
      exact List.Nodup.sublist (List.Sublist.map _ (List.filter_sublist _)) hnd
    obtain ⟨ihlen, ihgreedy, ihnodup, ihpw⟩ := ih
      (removeAddr eligible (drawIter tier.winners eligible state).1)
      (drawIter tier.winners eligible state).2.2
      ((drawIter tier.winners eligible state).1.foldl
        (fun r w => mapSet r w.address (tier.name, tier.initPerWinner)) results)
      hpos' hnd'
    rw [conductDrawAux_snd_cons]
    refine ⟨by simp [ihlen], ⟨hlen, ?_⟩, ?_, ?_⟩
    · rw [hlenrm] at ihgreedy
      exact ihgreedy
    · intro l hl
      rcases List.mem_cons.mp hl with hl | hl
      · subst hl
        exact hndws
      · exact ihnodup l hl
    · rw [List.pairwise_cons]
      refine ⟨?_, ihpw⟩
      intro l' hl' w hwmem w' hwmem'
      have hmem' := conductDrawAux_mem rest _ _ _ l' hl' w' hwmem'
      rw [removeAddr_eq_filter] at hmem'
      have hP := List.of_mem_filter hmem'
      have := List.all_eq_true.mp hP w hwmem
      rw [bne_iff_ne] at this
      exact fun hco => this hco.symm

lemma greedy_sum :
    ∀ (tiers : List PrizeTier) (ls : List (List PlayerEntry)) (r : Nat),
      Greedy tiers ls r →
      (ls.map List.length).sum = min ((tiers.map PrizeTier.winners).sum) r := by
  intro tiers
  induction tiers with
  | nil =>
    intro ls r h
    cases ls with
    | nil => simp
    | cons l ls' => exact h.elim
  | cons tier rest ih =>
    intro ls r h
    cases ls with
    | nil => exact h.elim
    | cons l ls' =>
      obtain ⟨h1, h2⟩ := h
      have hrec := ih ls' (r - l.length) h2
      simp only [List.map_cons, List.sum_cons, hrec]
      omega

lemma greedy_zero :
    ∀ (tiers : List PrizeTier) (ls : List (List PlayerEntry)),
      Greedy tiers ls 0 → ∀ l ∈ ls, l.length = 0 := by
  intro tiers
  induction tiers with
  | nil =>
    intro ls h l hl
    cases ls with
    | nil => simp at hl
    | cons l0 ls' => exact h.elim
  | cons tier rest ih =>
    intro ls h l hl
    cases ls with
    | nil => simp at hl
    | cons l0 ls' =>
      obtain ⟨h1, h2⟩ := h
      have hl0 : l0.length = 0 := by omega
      rcases List.mem_cons.mp hl with hl | hl
      · rw [hl, hl0]
      · refine ih ls' ?_ l hl
        rw [hl0] at h2
        exact h2

lemma greedy_short :
    ∀ (tiers : List PrizeTier) (ls : List (List PlayerEntry)) (r : Nat),
      Greedy tiers ls r →
      ∀ i j (hit : i < tiers.length) (hi : i < ls.length) (hj : j < ls.length), i < j →
        (ls.get ⟨i, hi⟩).length < (tiers.get ⟨i, hit⟩).winners →
        (ls.get ⟨j, hj⟩).length = 0 := by
  intro tiers
  induction tiers with
  | nil =>
    intro ls r h i j hit
    exact absurd hit (Nat.not_lt_zero i)
  | cons tier rest ih =>
    intro ls r h i j hit hi hj hij hshort
    cases ls with
    | nil => exact absurd hj (Nat.not_lt_zero j)
    | cons l0 ls' =>
      obtain ⟨h1, h2⟩ := h
      match i, j with
      | 0, j' + 1 =>
        simp only [List.get] at hshort ⊢
        have hr0 : r - l0.length = 0 := by omega
        rw [hr0] at h2
        exact greedy_zero rest ls' h2 _ (List.get_mem ls' j' _)
      | i' + 1, j' + 1 =>
        simp only [List.get] at hshort ⊢
        exact ih ls' (r - l0.length) h2 i' j'
          (by simpa using hit) (by simpa using hi) (by simpa using hj)
          (by omega) hshort

/-- Claim C2: for a population with pairwise-distinct identifiers, no
identifier appears as a winner in more than one tier, and no tier lists the
same identifier twice: within each tier the winner addresses are distinct,
and winners of distinct tiers have distinct addresses (once selected, a
participant is removed from the pool and never selected again). -/
theorem c2_no_double_win (tiers : List PrizeTier) (players : List PlayerEntry)
    (seed : String) (hnd : (players.map PlayerEntry.address).Nodup) :
    (∀ l ∈ (conductDrawWith tiers players seed).2, (l.map PlayerEntry.address).Nodup) ∧
    (conductDrawWith tiers players seed).2.Pairwise
      (fun l₁ l₂ => ∀ w ∈ l₁, ∀ w' ∈ l₂, w.address ≠ w'.address) := by
  have hpos : ∀ p ∈ players.filter (fun p => decide (0 < p.tickets)), 0 < p.tickets := by
    intro p hp
    simpa using (List.mem_filter.mp hp).2
  have hnd2 : ((players.filter
      (fun p => decide (0 < p.tickets))).map PlayerEntry.address).Nodup :=
    List.Nodup.sublist (List.Sublist.map _ (List.filter_sublist _)) hnd
  have h := conductDrawAux_spec tiers
    (players.filter (fun p => decide (0 < p.tickets))) (hashString seed) [] hpos hnd2
  exact ⟨h.2.2.1, h.2.2.2⟩

/-- Claim C2, witness: the two-player, two-tier draw on seed "test" has
duplicate-free winner lists with disjoint addresses. -/
theorem c2_witness :
    (([⟨"A", 100, 1⟩, ⟨"B", 50, 1⟩] : List PlayerEntry).map PlayerEntry.address).Nodup ∧
    ((∀ l ∈ (conductDrawWith [⟨"T1", 1, 5⟩, ⟨"T2", 1, 3⟩]
        [⟨"A", 100, 1⟩, ⟨"B", 50, 1⟩] "test").2, (l.map PlayerEntry.address).Nodup) ∧
      (conductDrawWith [⟨"T1", 1, 5⟩, ⟨"T2", 1, 3⟩]
        [⟨"A", 100, 1⟩, ⟨"B", 50, 1⟩] "test").2.Pairwise
        (fun l₁ l₂ => ∀ w ∈ l₁, ∀ w' ∈ l₂, w.address ≠ w'.address)) :=
  ⟨by decide,
    c2_no_double_win [⟨"T1", 1, 5⟩, ⟨"T2", 1, 3⟩] [⟨"A", 100, 1⟩, ⟨"B", 50, 1⟩]
      "test" (by decide)⟩

/-- Claim C8, counterexample: with duplicate identifiers in the population,
the total number of winners can fall short of the eligible population size
even though the eligible population is smaller than the configured total.
Population `[A(1), A(1), B(1)]` (eligible size 3), tiers `[1, 3]` (total 4),
seed "": tier 1 selects one of the `A` records, the address filter then
removes both `A` records, and only `B` is left for tier 2 — 2 winners in
total, not 3. -/
theorem c8_duplicate_address_counterexample :
    (([⟨"A", 100, 1⟩, ⟨"A", 100, 1⟩, ⟨"B", 100, 1⟩] : List PlayerEntry).filter
      (fun p => decide (0 < p.tickets))).length = 3 ∧
    (([⟨"T1", 1, 1⟩, ⟨"T2", 3, 1⟩] : List PrizeTier).map PrizeTier.winners).sum = 4 ∧
    (((conductDrawWith [⟨"T1", 1, 1⟩, ⟨"T2", 3, 1⟩]
      [⟨"A", 100, 1⟩, ⟨"A", 100, 1⟩, ⟨"B", 100, 1⟩] "").2).map List.length).sum = 2 := by
  refine ⟨by decide, by decide, by decide⟩

/-- Claim C8, amended with the data model's distinct-identifier invariant
restricted to the positive-weight participants: when those participants
have pairwise-distinct identifiers and their number is below the sum of the
configured tier winner counts, the draw returns one winner list per tier,
the total number of winners equals the eligible population size, and any
tier that falls short of its configured count leaves every later tier
empty (so every tier before the first short tier is filled in full, and
only the tail tiers are short or empty); no error is raised — the draw is a
total function. -/
theorem c8_exhaustion_fills_in_order (tiers : List PrizeTier) (players : List PlayerEntry)
    (seed : String)
    (hnd : ((players.filter (fun p => decide (0 < p.tickets))).map PlayerEntry.address).Nodup)
    (hlt : (players.filter (fun p => decide (0 < p.tickets))).length <
      (tiers.map PrizeTier.winners).sum) :
    (conductDrawWith tiers players seed).2.length = tiers.length ∧
    (((conductDrawWith tiers players seed).2).map List.length).sum =
      (players.filter (fun p => decide (0 < p.tickets))).length ∧
    ∀ i j (hit : i < tiers.length) (hi : i < (conductDrawWith tiers players seed).2.length)
      (hj : j < (conductDrawWith tiers players seed).2.length), i < j →
      ((conductDrawWith tiers players seed).2.get ⟨i, hi⟩).length <
        (tiers.get ⟨i, hit⟩).winners →
      ((conductDrawWith tiers players seed).2.get ⟨j, hj⟩).length = 0 := by
  have hpos : ∀ p ∈ players.filter (fun p => decide (0 < p.tickets)), 0 < p.tickets := by
    intro p hp
    simpa using (List.mem_filter.mp hp).2
  have h := conductDrawAux_spec tiers
    (players.filter (fun p => decide (0 < p.tickets))) (hashString seed) [] hpos hnd
  simp only [conductDrawWith]
  refine ⟨h.1, ?_, ?_⟩
  · have hs := greedy_sum tiers _ _ h.2.1
    rw [hs]
    omega
  · intro i j hit hi hj hij hshort
    exact greedy_short tiers _ _ h.2.1 i j hit hi hj hij hshort

/-- Claim C8, witness: one eligible player, one tier configured for two
winners — the single player wins, the tier is short, and there is no later
tier. -/
theorem c8_witness :
    ((([⟨"A", 100, 1⟩] : List PlayerEntry).filter
      (fun p => decide (0 < p.tickets))).map PlayerEntry.address).Nodup ∧
    (([⟨"A", 100, 1⟩] : List PlayerEntry).filter
      (fun p => decide (0 < p.tickets))).length <
      (([⟨"T1", 2, 5⟩] : List PrizeTier).map PrizeTier.winners).sum ∧
    ((conductDrawWith [⟨"T1", 2, 5⟩] [⟨"A", 100, 1⟩] "test").2.length =
        ([⟨"T1", 2, 5⟩] : List PrizeTier).length ∧
      (((conductDrawWith [⟨"T1", 2, 5⟩] [⟨"A", 100, 1⟩] "test").2).map List.length).sum =
        (([⟨"A", 100, 1⟩] : List PlayerEntry).filter
          (fun p => decide (0 < p.tickets))).length ∧
      ∀ i j (hit : i < ([⟨"T1", 2, 5⟩] : List PrizeTier).length)
        (hi : i < (conductDrawWith [⟨"T1", 2, 5⟩] [⟨"A", 100, 1⟩] "test").2.length)
        (hj : j < (conductDrawWith [⟨"T1", 2, 5⟩] [⟨"A", 100, 1⟩] "test").2.length),
        i < j →
        ((conductDrawWith [⟨"T1", 2, 5⟩] [⟨"A", 100, 1⟩] "test").2.get ⟨i, hi⟩).length <
          (([⟨"T1", 2, 5⟩] : List PrizeTier).get ⟨i, hit⟩).winners →
        ((conductDrawWith [⟨"T1", 2, 5⟩] [⟨"A", 100, 1⟩] "test").2.get ⟨j, hj⟩).length = 0) :=
  ⟨by decide, by decide,
    c8_exhaustion_fills_in_order [⟨"T1", 2, 5⟩] [⟨"A", 100, 1⟩] "test"
      (by decide) (by decide)⟩

lemma resultLE_total (a b : DrawResult) : (resultLE a b || resultLE b a) = true := by
  unfold resultLE
  by_cases h : a.init_won = b.init_won
  · rw [if_pos h, if_pos h.symm]
    simp only [Bool.or_eq_true, decide_eq_true_eq]
    omega
  · rw [if_neg h, if_neg (fun hco => h hco.symm)]
    simp only [Bool.or_eq_true, decide_eq_true_eq]
    omega

lemma resultLE_trans (a b c : DrawResult) (h1 : resultLE a b = true)
    (h2 : resultLE b c = true) : resultLE a c = true := by
  unfold resultLE at h1 h2 ⊢
  split_ifs at h1 h2 ⊢ <;> simp only [decide_eq_true_eq] at h1 h2 ⊢ <;> omega

lemma resultLE_imp (a b : DrawResult) (h : resultLE a b = true) :
    b.init_won ≤ a.init_won ∧ (a.init_won = b.init_won → b.tickets ≤ a.tickets) := by
  unfold resultLE at h
  split_ifs at h <;> simp only [decide_eq_true_eq] at h <;> omega

/-- Claim C9: the output of `generateOutput` is a permutation of one row
per original population member (built in population order, then stably
sorted), its rows are ordered by descending payout with ties broken by
descending ticket count, and consequently every row with positive payout
(a winner, since every configured payout is positive) precedes every row
with payout 0 (a non-winner). -/
theorem c9_output_rows_and_order (players : List PlayerEntry)
    (results : List (String × String × Nat)) :
    (generateOutput players results).Perm (players.map (buildRow results)) ∧
    (generateOutput players results).length = players.length ∧
    (generateOutput players results).Pairwise (fun a b =>
      b.init_won ≤ a.init_won ∧ (a.init_won = b.init_won → b.tickets ≤ a.tickets)) ∧
    (generateOutput players results).Pairwise
      (fun a b => 0 < b.init_won → 0 < a.init_won) := by
  have hperm : (generateOutput players results).Perm (players.map (buildRow results)) :=
    List.mergeSort_perm _ _
  have hsorted := List.sorted_mergeSort resultLE_trans resultLE_total
    (players.map (buildRow results))
  refine ⟨hperm, by rw [hperm.length_eq, List.length_map], ?_, ?_⟩
  · exact hsorted.imp (fun hab => resultLE_imp _ _ hab)
  · exact hsorted.imp (fun hab hpos => by have := resultLE_imp _ _ hab; omega)
